import Mathlib

/-!
Verification development for the automated test-generation pipeline in
`src/main.py` (module discovery → prompt-driven test generation with retry →
fenced-block extraction/sanitization → batch execution → approval-gated repair).

Shallow embedding conventions:
* Python strings are Lean `String`s; all low-level string primitives used by the
  source (`str.splitlines`, `str.strip`, `str.startswith`, `str.replace`,
  `str.lower`, `"\n".join`) are modelled as executable Lean functions over
  `List Char` / `String`.  Line endings are modelled as LF (`'\n'`), which is the
  only separator the claims exercise.
* Exceptions are modelled with `Except` over an explicit exception type `PyExc`.
* The file system is an association list from path to content.
* External collaborators (the Gemini network call, Python's `compile` builtin,
  the unittest runner) are abstracted as function parameters, exactly at the
  call boundary the source uses them.
-/

/-- Exception kinds the source distinguishes: `google.api_core.exceptions.ResourceExhausted`,
`asyncio.TimeoutError`, the `AttributeError` raised by `extract_text_from_response`,
and any other exception type (src/main.py lines 30-44, 58-60). -/
inductive PyExc where
  | resourceExhausted
  | timeoutError
  | attributeError
  | otherExc (tag : Nat)
deriving DecidableEq, Repr

/-- Attribute view of a non-mapping response object probed by
`extract_text_from_response` (src/main.py lines 46-57): `generations = some gs`
means the object has a `generations` attribute whose elements' `.text` fields are
`gs`; `text = some t` means it has a `.text` attribute with value `t`;
`choices = some cs` means it has a `choices` attribute whose elements' `.text`
fields are `cs`; `none` means the attribute is absent. -/
structure ObjResponse where
  generations : Option (List String)
  text : Option String
  choices : Option (List String)
deriving DecidableEq, Repr

/-- Mapping view of a dict response probed by `extract_text_from_response`
(src/main.py lines 51-55): `generations = none` means the `'generations'` key is
absent, `some none` means it is present but its value is not a list,
`some (some gs)` means it is a list whose i-th element's `.get('text', ...)`
lookup yields `gs[i]` (`none` when the element has no `'text'` key);
`text = some t` means the `'text'` key is present with value `t`.
A plain dict has none of the attributes probed by `hasattr`. -/
structure DictResponse where
  generations : Option (Option (List (Option String)))
  text : Option String
deriving DecidableEq, Repr

/-- Backend response value handed to `extract_text_from_response`: either an
object with attributes or a mapping (src/main.py lines 46-60). -/
inductive Response where
  | obj (o : ObjResponse)
  | dict (d : DictResponse)
deriving DecidableEq, Repr

/-- Possible outcomes of `extract_text_from_response`: an explicit `return` of a
string, Python's implicit `return None` when the function body falls through
without reaching any `return` or `raise`, or the raised `AttributeError`. -/
inductive ExtractOutcome where
  | text (s : String)
  | noneReturn
  | attrError
deriving DecidableEq, Repr

/-- Embedding of `GeminiModel.extract_text_from_response` (src/main.py lines
46-60).  The branch cascade follows the source exactly:
`hasattr(response, 'generations') and len(...) > 0`, then
`hasattr(response, 'text')`, then `isinstance(response, dict)` with the inner
`'generations'`/`'text'` key probes, then `hasattr(response, 'choices') and
len(...) > 0`, and an `else` that raises `AttributeError`.  Note that when the
`isinstance(response, dict)` branch is taken and neither inner key test fires,
Python falls out of the whole `if`/`elif` chain and returns `None`. -/
def extract_text_from_response : Response → ExtractOutcome
  | .obj o =>
    match o.generations with
    | some (g :: _) => .text g
    | _ =>
      match o.text with
      | some t => .text t
      | none =>
        match o.choices with
        | some (c :: _) => .text c
        | _ => .attrError
  | .dict d =>
    match d.generations with
    | some (some (g :: _)) => .text (g.getD "")
    | _ =>
      match d.text with
      | some t => .text t
      | none => .noneReturn

/-- Model of Python `str.startswith(pat)`: the pattern's characters are a prefix
of the string's characters. -/
def pyStartswith (s pat : String) : Bool :=
  pat.data.isPrefixOf s.data

/-- Model of Python `str.endswith(pat)`: the pattern's characters are a suffix
of the string's characters. -/
def pyEndswith (s pat : String) : Bool :=
  pat.data.isSuffixOf s.data

/-- Model of Python `str.lower()` (ASCII case mapping, which is all the source
compares). -/
def pyLower (s : String) : String :=
  (s.data.map Char.toLower).asString

/-- Whitespace predicate used to model Python `str.strip()`; covers the ASCII
whitespace the claims exercise. -/
def pyWS (c : Char) : Bool := c.isWhitespace

/-- Character-level model of Python `str.strip()`: drop whitespace from both
ends. -/
def stripChars (l : List Char) : List Char :=
  ((l.dropWhile pyWS).reverse.dropWhile pyWS).reverse

/-- Model of Python `str.strip()`. -/
def pyStrip (s : String) : String :=
  (stripChars s.data).asString

/-- Model of Python `str.splitlines()` for LF line endings: maximal runs of
characters between `'\n'`, with no trailing empty line when the text ends in a
newline, and no line at all for the empty text. -/
def splitAux : List Char → List Char → List String
  | [], [] => []
  | [], acc => [acc.reverse.asString]
  | c :: cs, acc =>
    if c = '\n' then acc.reverse.asString :: splitAux cs []
    else splitAux cs (c :: acc)

/-- Model of Python `str.splitlines()` (LF separators). -/
def pySplitlines (s : String) : List String :=
  splitAux s.data []

/-- Model of Python `"\n".join(lines)`. -/
def pyJoin : List String → String
  | [] => ""
  | [l] => l
  | l :: ls => l ++ "\n" ++ pyJoin ls

/-- Line loop of `extract_code_from_markdown` (src/main.py lines 71-79): a line
whose stripped form starts with `"```python"` sets the `in_code_block` flag and
is skipped (`continue`); otherwise a line whose stripped form starts with
`"```"` while the flag is set clears the flag and is skipped; otherwise the line
is collected exactly when the flag is set. -/
def extractLines : List String → Bool → List String
  | [], _ => []
  | line :: rest, in_code_block =>
    if pyStartswith (pyStrip line) "```python" then extractLines rest true
    else if pyStartswith (pyStrip line) "```" ∧ in_code_block then extractLines rest false
    else if in_code_block then line :: extractLines rest in_code_block
    else extractLines rest in_code_block

/-- Embedding of `extract_code_from_markdown` (src/main.py lines 68-80). -/
def extract_code_from_markdown (text : String) : String :=
  pyJoin (extractLines (pySplitlines text) false)

/-- Character-level model of Python `str.replace(pat, '')` (deletion form used
by the source): scan left to right; at a position where `pat` is a prefix,
consume the whole occurrence (the `skip` counter consumes the remaining
`pat.length - 1` characters) and continue after it; otherwise emit the character. -/
def removeOccAux (pat : List Char) : Nat → List Char → List Char
  | _, [] => []
  | Nat.succ k, _ :: cs => removeOccAux pat k cs
  | 0, c :: cs =>
    if pat.isPrefixOf (c :: cs) then removeOccAux pat (pat.length - 1) cs
    else c :: removeOccAux pat 0 cs

/-- Model of Python `s.replace(pat, '')` on character lists. -/
def removeOcc (pat l : List Char) : List Char :=
  removeOccAux pat 0 l

/-- Model of Python `s.replace(pat, '')` on strings. -/
def pyReplaceDel (s pat : String) : String :=
  (removeOcc pat.data s.data).asString

/-- Embedding of `GeminiModel.sanitize_generated_text` (src/main.py lines
62-66): `text.replace("```python", "").replace("```", "").strip()`. -/
def sanitize_generated_text (text : String) : String :=
  pyStrip (pyReplaceDel (pyReplaceDel text "```python") "```")

/-- Decidable occurrence test: `pat` appears as a contiguous substring of `l`. -/
def hasOcc (pat : List Char) : List Char → Bool
  | [] => pat.isPrefixOf []
  | c :: cs => pat.isPrefixOf (c :: cs) || hasOcc pat cs

/-- Retry predicate configured on `generate_test_code` (src/main.py line 33):
`retry_if_exception_type((ResourceExhausted, asyncio.TimeoutError))`. -/
def tenacityRetryPred : PyExc → Bool
  | .resourceExhausted => true
  | .timeoutError => true
  | _ => false

/-- Number of attempts configured by `stop_after_attempt(3)` (src/main.py line 31). -/
def tenacityStopAttempts : Nat := 3

/-- Fixed delay configured by `wait_fixed(5)` (src/main.py line 32). -/
def tenacityWaitSeconds : Nat := 5

/-- Result of a retried call: how many attempts ran, the waits performed between
attempts, and the final outcome. -/
structure RetryResult where
  attempts : Nat
  delays : List Nat
  outcome : Except PyExc (Option String)
deriving Repr

/-- Modelled from the spec: the `tenacity` retry engine (third-party library,
not in src) driving the decorator on `generate_test_code` — run the body; on an
exception matching the retry predicate, wait the fixed delay and try again while
attempts remain (`fuel` counts attempts still allowed, starting at the
`stop_after_attempt` bound); otherwise surface the exception.  `k` is the
1-based attempt number. -/
def tenacityGo (body : Nat → Except PyExc (Option String)) :
    Nat → Nat → List Nat → RetryResult
  | 0, k, ds => ⟨k, ds.reverse, .error (.otherExc 0)⟩
  | fuel + 1, k, ds =>
    match body k with
    | .ok v => ⟨k, ds.reverse, .ok v⟩
    | .error e =>
      if tenacityRetryPred e ∧ 0 < fuel then
        tenacityGo body fuel (k + 1) (tenacityWaitSeconds :: ds)
      else ⟨k, ds.reverse, .error e⟩

/-- One attempt of the body of `generate_test_code` (src/main.py lines 35-44):
call the backend (abstracted as `responses`, indexed by the attempt number),
then normalize via `extract_text_from_response`.  Both `except` clauses log and
re-`raise`, so every exception propagates out of the body; a `noneReturn` from
the extractor is Python returning the value `None`. -/
def generate_test_code_attempt (responses : Nat → Except PyExc Response)
    (k : Nat) : Except PyExc (Option String) :=
  match responses k with
  | .error e => .error e
  | .ok r =>
    match extract_text_from_response r with
    | .text s => .ok (some s)
    | .noneReturn => .ok none
    | .attrError => .error .attributeError

/-- Embedding of the retried `GeminiModel.generate_test_code` (src/main.py
lines 30-44): the tenacity loop applied to the body, 3 attempts, 5-second fixed
wait, retrying only on `ResourceExhausted` / `TimeoutError`. -/
def generate_test_code (responses : Nat → Except PyExc Response) : RetryResult :=
  tenacityGo (generate_test_code_attempt responses) tenacityStopAttempts 1 []

/-- Model of `os.path.basename` for slash-separated paths. -/
def pyBasename (p : String) : String :=
  (p.splitOn "/").getLastD p

/-- Artifact path derived for a module (src/main.py lines 136-137):
`os.path.join(test_dir, "test_" + os.path.basename(file_path))`. -/
def testFilePath (f : String) : String :=
  "tests/" ++ ("test_" ++ pyBasename f)

/-- Generation prompt template (src/main.py lines 117-123). -/
def buildGenPrompt (code : String) : String :=
  "以下のPythonコードに対する100%網羅率の単体テストコードのみを生成してください。コメントや説明文は含めないでください。\n\n```python\n"
    ++ code ++ "\n```"

/-- Repair prompt template (src/main.py lines 181-186). -/
def buildRepairPrompt (test_code : String) : String :=
  "以下のテストコードは失敗しています。原因を特定し、元のコードとテストコードを修正してください。\n\n```python\n"
    ++ test_code ++ "\n```"

/-- Per-module generation loop (src/main.py lines 112-143): for each discovered
file, read its content, build the prompt, call the (retried) model client; on an
exception log an error naming the module and continue; otherwise extract the
fenced code, log an error and skip when the stripped extract is empty, and
otherwise persist the artifact at its derived path.  Returns the created
artifacts (path, content) in creation order and the error-logged module paths. -/
def generationLoop (contents : String → String)
    (generate : String → Except PyExc String) :
    List String → List (String × String) → List String →
    List (String × String) × List String
  | [], arts, errs => (arts.reverse, errs.reverse)
  | f :: rest, arts, errs =>
    match generate (buildGenPrompt (contents f)) with
    | .error _ => generationLoop contents generate rest arts (f :: errs)
    | .ok raw =>
      let test_code := extract_code_from_markdown raw
      if pyStrip test_code = "" then
        generationLoop contents generate rest arts (f :: errs)
      else
        generationLoop contents generate rest ((testFilePath f, test_code) :: arts) errs

/-- Embedding of the GenerationStage of `main` (src/main.py lines 112-143). -/
def generationStage (contents : String → String)
    (generate : String → Except PyExc String) (files : List String) :
    List (String × String) × List String :=
  generationLoop contents generate files [] []

/-- Read a file's content from the association-list file system (missing files
read as empty). -/
def fsRead : List (String × String) → String → String
  | [], _ => ""
  | e :: es, p => if e.1 = p then e.2 else fsRead es p

/-- Overwrite (or create) a file in the association-list file system. -/
def fsWrite : List (String × String) → String → String → List (String × String)
  | [], p, c => [(p, c)]
  | e :: es, p, c => if e.1 = p then (p, c) :: es else e :: fsWrite es p c

/-- Per-artifact repair loop (src/main.py lines 177-207): for each failed test
file, read its current content, build the repair prompt, call the model client;
on an exception log and continue; otherwise extract the fenced code, sanitize
it, validate it with the target-language parser (`compile(fixed_code, '<string>',
'exec')`, abstracted as `isValid`); on a syntax error log and continue without
writing; on success overwrite the artifact.  Returns the final file system and
the error-logged file list. -/
def repairLoop (generate : String → Except PyExc String) (isValid : String → Bool) :
    List String → List (String × String) → List String →
    List (String × String) × List String
  | [], fs, errs => (fs, errs.reverse)
  | tf :: rest, fs, errs =>
    match generate (buildRepairPrompt (fsRead fs tf)) with
    | .error _ => repairLoop generate isValid rest fs (tf :: errs)
    | .ok raw =>
      let fixed := sanitize_generated_text (extract_code_from_markdown raw)
      if isValid fixed then repairLoop generate isValid rest (fsWrite fs tf fixed) errs
      else repairLoop generate isValid rest fs (tf :: errs)

/-- Embedding of the RepairStage of `main` (src/main.py lines 174-207): the
whole-batch approval gate `input(...)`, compared after `str.lower()` against
`'yes'`; when declined no repair action runs and the file system is returned
unchanged. -/
def repairStage (approval : String) (generate : String → Except PyExc String)
    (isValid : String → Bool) (fs : List (String × String)) (failed : List String) :
    List (String × String) × List String :=
  if pyLower approval == "yes" then repairLoop generate isValid failed fs []
  else (fs, [])

/-- Qualifying-file test of Discovery (src/main.py line 99):
`file.endswith('.py') and file != '__init__.py'`. -/
def qualifiesAsSource (file : String) : Bool :=
  pyEndswith file ".py" && file != "__init__.py"

/-- Discovery walk (src/main.py lines 97-100): each walk entry is a
`(root, file)` pair as produced by `os.walk`; qualifying files are joined to
their root directory. -/
def discoverPythonFiles (walk : List (String × String)) : List String :=
  (walk.filter (fun rf => qualifiesAsSource rf.2)).map (fun rf => rf.1 ++ "/" ++ rf.2)

/-- Terminal behavior of the discovery prologue of `main`: a fatal non-zero
`sys.exit(1)`, a graceful `sys.exit(0)`, or proceeding into the stages with the
discovered files. -/
inductive MainOutcome where
  | fatalExit (code : Nat)
  | gracefulExit (code : Nat)
  | proceed (files : List String)
deriving DecidableEq, Repr

/-- Embedding of the discovery prologue of `main` (src/main.py lines 91-104):
`sys.exit(1)` when the src directory does not exist; `sys.exit(0)` with a
warning when no qualifying Python files are found; otherwise continue with the
file list. -/
def discovery (srcExists : Bool) (walk : List (String × String)) : MainOutcome :=
  if srcExists = false then .fatalExit 1
  else if discoverPythonFiles walk = [] then .gracefulExit 0
  else .proceed (discoverPythonFiles walk)

/-- Backtick character, recovered from the fence string to keep every character
literal printable. -/
def btChar : Char := "```".data.headD ' '

/-- Concrete backend behavior: every attempt raises the quota error. -/
def quotaResponses : Nat → Except PyExc Response :=
  fun _ => .error .resourceExhausted

/-- Concrete backend behavior: every attempt returns an object with an empty
`generations` list, no `text` attribute and an empty `choices` list, so the
response normalizer raises `AttributeError`. -/
def attrResponses : Nat → Except PyExc Response :=
  fun _ => .ok (.obj ⟨some [], none, some []⟩)

/-- Concrete module contents for the generation-stage scenario. -/
def genFixtureContents : String → String := fun f => f

/-- Concrete model client for the generation-stage scenario: the prompt built
for module `a.py` raises, every other prompt returns one fenced block. -/
def genFixtureGenerate : String → Except PyExc String :=
  fun p =>
    if p = buildGenPrompt "a.py" then .error .resourceExhausted
    else .ok "```python\nassert True\n```"

/-- Concrete model client for the repair-stage scenario: always returns a
fenced block whose payload the validator will reject. -/
def repairFixtureGenerate : String → Except PyExc String :=
  fun _ => .ok "```python\ndef broken(:\n```"

/-- Concrete validity oracle for the repair-stage scenario: rejects every
candidate, modelling `compile` raising `SyntaxError`. -/
def repairFixtureRejects : String → Bool := fun _ => false

/-! ## Theorems -/

/-- Claim C1 (code_bug evidence).  `extract_text_from_response` does not raise
on every unrecognized response shape: a mapping with neither a `generations`
nor a `text` key matches none of the recognized shapes, yet the function falls
out of the `isinstance(response, dict)` branch — skipping the final `else` that
raises — and silently returns `None`. -/
theorem extract_text_dict_fallthrough_returns_none :
    extract_text_from_response (Response.dict ⟨none, none⟩) = ExtractOutcome.noneReturn ∧
    extract_text_from_response (Response.dict ⟨none, none⟩) ≠ ExtractOutcome.attrError := by
  constructor
  · rfl
  · intro h
    cases h

/-- Claim C6.  Discovery and process termination: a missing source root exits
fatally with a non-zero code before any stage runs, and an existing root with
no qualifying source files (names ending in `.py`, excluding `__init__.py` by
exact name) exits gracefully with code zero, never reaching the generation
stage (so no artifact is produced). -/
theorem discovery_exit_codes (srcExists : Bool) (walk : List (String × String)) :
    (srcExists = false →
      ∃ c, discovery srcExists walk = MainOutcome.fatalExit c ∧ c ≠ 0) ∧
    (srcExists = true → discoverPythonFiles walk = [] →
      discovery srcExists walk = MainOutcome.gracefulExit 0 ∧
      ∀ files, discovery srcExists walk ≠ MainOutcome.proceed files) := by
  constructor
  · intro h
    refine ⟨1, ?_, by omega⟩
    simp [discovery, h]
  · intro h hq
    constructor
    · simp [discovery, h, hq]
    · intro files
      simp [discovery, h, hq]

/-- Witness for C6 at concrete inputs: a missing root, and an existing root
holding only a package initializer and a non-source file. -/
theorem discovery_exit_codes_witness :
    (∃ c, discovery false [("src", "a.py")] = MainOutcome.fatalExit c ∧ c ≠ 0) ∧
    discovery true [("src", "__init__.py"), ("src", "note.txt")] =
      MainOutcome.gracefulExit 0 := by
  constructor
  · exact (discovery_exit_codes false [("src", "a.py")]).1 rfl
  · exact ((discovery_exit_codes true [("src", "__init__.py"), ("src", "note.txt")]).2
      rfl (by decide)).1

/-- Claim C7.  When the human approval prompt is declined (anything whose
lowercased form is not `yes`), RepairStage performs no repair action: the file
system it returns is the one it was given, so every failed artifact's content
is byte-for-byte unchanged. -/
theorem repair_declined_no_action (approval : String)
    (generate : String → Except PyExc String) (isValid : String → Bool)
    (fs : List (String × String)) (failed : List String)
    (h : pyLower approval ≠ "yes") :
    (repairStage approval generate isValid fs failed).1 = fs ∧
    ∀ tf, fsRead (repairStage approval generate isValid fs failed).1 tf = fsRead fs tf := by
  have hb : (pyLower approval == "yes") = false := by
    simp [h]
  constructor
  · simp [repairStage, hb]
  · intro tf
    simp [repairStage, hb]

/-- Witness for C7: declining with `no` leaves a concrete failed artifact's
content unchanged. -/
theorem repair_declined_no_action_witness :
    (repairStage "no" repairFixtureGenerate repairFixtureRejects
        [("tests/test_a.py", "old content")] ["tests/test_a.py"]).1 =
      [("tests/test_a.py", "old content")] ∧
    fsRead (repairStage "no" repairFixtureGenerate repairFixtureRejects
        [("tests/test_a.py", "old content")] ["tests/test_a.py"]).1 "tests/test_a.py" =
      fsRead [("tests/test_a.py", "old content")] "tests/test_a.py" := by
  have h := repair_declined_no_action "no" repairFixtureGenerate repairFixtureRejects
    [("tests/test_a.py", "old content")] ["tests/test_a.py"] (by decide)
  exact ⟨h.1, h.2 "tests/test_a.py"⟩

/-- Claim C4.  GenerationStage isolates failures per module: over two discovered
modules, if the generation call for one raises and the call for the other
succeeds with a non-empty extracted artifact, exactly one artifact is created
(for the succeeding module), an error is logged for the failing module, and the
batch is not aborted — in either processing order. -/
theorem generation_isolates_failures (contents : String → String)
    (generate : String → Except PyExc String) (m1 m2 : String) (e : PyExc) (raw : String)
    (h1 : generate (buildGenPrompt (contents m1)) = Except.error e)
    (h2 : generate (buildGenPrompt (contents m2)) = Except.ok raw)
    (hne : pyStrip (extract_code_from_markdown raw) ≠ "") :
    generationStage contents generate [m1, m2] =
      ([(testFilePath m2, extract_code_from_markdown raw)], [m1]) ∧
    generationStage contents generate [m2, m1] =
      ([(testFilePath m2, extract_code_from_markdown raw)], [m1]) := by
  constructor
  · simp [generationStage, generationLoop, h1, h2, hne]
  · simp [generationStage, generationLoop, h1, h2, hne]

/-- Witness for C4: module `a.py` hits a quota error, module `b.py` returns one
fenced block; exactly the artifact for `b.py` is produced and `a.py` is
error-logged. -/
theorem generation_isolates_failures_witness :
    generationStage genFixtureContents genFixtureGenerate ["a.py", "b.py"] =
      ([(testFilePath "b.py",
          extract_code_from_markdown "```python\nassert True\n```")], ["a.py"]) := by
  have h := generation_isolates_failures genFixtureContents genFixtureGenerate
    "a.py" "b.py" PyExc.resourceExhausted "```python\nassert True\n```"
    rfl rfl (by decide)
  exact h.1

/-- Claim C3.  `generate_test_code` makes at most 3 total attempts with a fixed
5-time-unit delay between attempts, retries only when an attempt fails with a
backend resource-exhaustion error or a timeout, raises after the third attempt
on a persistent quota error, and propagates any other exception immediately on
its first occurrence without retrying. -/
theorem generate_test_code_retry_policy (responses : Nat → Except PyExc Response) :
    (generate_test_code responses).attempts ≤ 3 ∧
    (∀ d ∈ (generate_test_code responses).delays, d = 5) ∧
    (generate_test_code responses).delays.length + 1 = (generate_test_code responses).attempts ∧
    (∀ k, 1 ≤ k → k < (generate_test_code responses).attempts →
      ∃ e, generate_test_code_attempt responses k = Except.error e ∧
        tenacityRetryPred e = true) ∧
    ((∀ k, generate_test_code_attempt responses k = Except.error PyExc.resourceExhausted) →
      (generate_test_code responses).attempts = 3 ∧
      (generate_test_code responses).outcome = Except.error PyExc.resourceExhausted) ∧
    (∀ e, tenacityRetryPred e = false →
      generate_test_code_attempt responses 1 = Except.error e →
      (generate_test_code responses).attempts = 1 ∧
      (generate_test_code responses).delays = [] ∧
      (generate_test_code responses).outcome = Except.error e) := by
  have hg : generate_test_code responses =
      tenacityGo (generate_test_code_attempt responses) 3 1 [] := rfl
  cases h1 : generate_test_code_attempt responses 1 with
  | ok v1 =>
    have hA : (generate_test_code responses).attempts = 1 := by
      rw [hg]; simp [tenacityGo, h1]
    have hD : (generate_test_code responses).delays = [] := by
      rw [hg]; simp [tenacityGo, h1]
    refine ⟨?_, ?_, ?_, ?_, ?_, ?_⟩
    · rw [hA]; omega
    · rw [hD]; simp
    · rw [hD, hA]; simp
    · intro k hk1 hk2; rw [hA] at hk2; omega
    · intro hall
      have h := hall 1
      rw [h1] at h
      cases h
    · intro e hpe he
      cases he
  | error e1 =>
    cases hp1 : tenacityRetryPred e1 with
    | false =>
      have hA : (generate_test_code responses).attempts = 1 := by
        rw [hg]; simp [tenacityGo, h1, hp1]
      have hD : (generate_test_code responses).delays = [] := by
        rw [hg]; simp [tenacityGo, h1, hp1]
      have hO : (generate_test_code responses).outcome = Except.error e1 := by
        rw [hg]; simp [tenacityGo, h1, hp1]
      refine ⟨?_, ?_, ?_, ?_, ?_, ?_⟩
      · rw [hA]; omega
      · rw [hD]; simp
      · rw [hD, hA]; simp
      · intro k hk1 hk2; rw [hA] at hk2; omega
      · intro hall
        have h := hall 1
        rw [h1] at h
        cases h
        simp [tenacityRetryPred] at hp1
      · intro e hpe he
        cases he
        exact ⟨hA, hD, hO⟩
    | true =>
      have hstep1 : generate_test_code responses =
          tenacityGo (generate_test_code_attempt responses) 2 2 [5] := by
        rw [hg]; simp [tenacityGo, h1, hp1, tenacityWaitSeconds]
      cases h2 : generate_test_code_attempt responses 2 with
      | ok v2 =>
        have hA : (generate_test_code responses).attempts = 2 := by
          rw [hstep1]; simp [tenacityGo, h2]
        have hD : (generate_test_code responses).delays = [5] := by
          rw [hstep1]; simp [tenacityGo, h2]
        refine ⟨?_, ?_, ?_, ?_, ?_, ?_⟩
        · rw [hA]; omega
        · rw [hD]; simp
        · rw [hD, hA]; simp
        · intro k hk1 hk2
          rw [hA] at hk2
          have hk : k = 1 := by omega
          subst hk
          exact ⟨e1, h1, hp1⟩
        · intro hall
          have h := hall 2
          rw [h2] at h
          cases h
        · intro e hpe he
          cases he
          rw [hp1] at hpe
          cases hpe
      | error e2 =>
        cases hp2 : tenacityRetryPred e2 with
        | false =>
          have hA : (generate_test_code responses).attempts = 2 := by
            rw [hstep1]; simp [tenacityGo, h2, hp2]
          have hD : (generate_test_code responses).delays = [5] := by
            rw [hstep1]; simp [tenacityGo, h2, hp2]
          refine ⟨?_, ?_, ?_, ?_, ?_, ?_⟩
          · rw [hA]; omega
          · rw [hD]; simp
          · rw [hD, hA]; simp
          · intro k hk1 hk2
            rw [hA] at hk2
            have hk : k = 1 := by omega
            subst hk
            exact ⟨e1, h1, hp1⟩
          · intro hall
            have h := hall 2
            rw [h2] at h
            cases h
            simp [tenacityRetryPred] at hp2
          · intro e hpe he
            cases he
            rw [hp1] at hpe
            cases hpe
        | true =>
          have hstep2 : generate_test_code responses =
              tenacityGo (generate_test_code_attempt responses) 1 3 [5, 5] := by
            rw [hstep1]; simp [tenacityGo, h2, hp2, tenacityWaitSeconds]
          cases h3 : generate_test_code_attempt responses 3 with
          | ok v3 =>
            have hA : (generate_test_code responses).attempts = 3 := by
              rw [hstep2]; simp [tenacityGo, h3]
            have hD : (generate_test_code responses).delays = [5, 5] := by
              rw [hstep2]; simp [tenacityGo, h3]
            refine ⟨?_, ?_, ?_, ?_, ?_, ?_⟩
            · rw [hA]
            · rw [hD]; simp
            · rw [hD, hA]; simp
            · intro k hk1 hk2
              rw [hA] at hk2
              have hk : k = 1 ∨ k = 2 := by omega
              rcases hk with hk | hk <;> subst hk
              · exact ⟨e1, h1, hp1⟩
              · exact ⟨e2, h2, hp2⟩
            · intro hall
              have h := hall 3
              rw [h3] at h
              cases h
            · intro e hpe he
              cases he
              rw [hp1] at hpe
              cases hpe
          | error e3 =>
            have hA : (generate_test_code responses).attempts = 3 := by
              rw [hstep2]; simp [tenacityGo, h3]
            have hD : (generate_test_code responses).delays = [5, 5] := by
              rw [hstep2]; simp [tenacityGo, h3]
            have hO : (generate_test_code responses).outcome = Except.error e3 := by
              rw [hstep2]; simp [tenacityGo, h3]
            refine ⟨?_, ?_, ?_, ?_, ?_, ?_⟩
            · rw [hA]
            · rw [hD]; simp
            · rw [hD, hA]; simp
            · intro k hk1 hk2
              rw [hA] at hk2
              have hk : k = 1 ∨ k = 2 := by omega
              rcases hk with hk | hk <;> subst hk
              · exact ⟨e1, h1, hp1⟩
              · exact ⟨e2, h2, hp2⟩
            · intro hall
              have h := hall 3
              rw [h3] at h
              cases h
              exact ⟨hA, hO⟩
            · intro e hpe he
              cases he
              rw [hp1] at hpe
              cases hpe

/-- Witness for C3: a persistently quota-exhausted backend is retried to
exactly 3 attempts and then raises; a backend whose response shape triggers
`AttributeError` fails on the first attempt with no retry and no delay. -/
theorem generate_test_code_retry_policy_witness :
    (generate_test_code quotaResponses).attempts = 3 ∧
    (generate_test_code quotaResponses).outcome =
      Except.error PyExc.resourceExhausted ∧
    (generate_test_code attrResponses).attempts = 1 ∧
    (generate_test_code attrResponses).delays = [] ∧
    (generate_test_code attrResponses).outcome = Except.error PyExc.attributeError := by
  have hq := generate_test_code_retry_policy quotaResponses
  have ha := generate_test_code_retry_policy attrResponses
  obtain ⟨-, -, -, -, hq5, -⟩ := hq
  obtain ⟨-, -, -, -, -, ha6⟩ := ha
  have h1 := hq5 (fun k => rfl)
  have h2 := ha6 PyExc.attributeError rfl rfl
  exact ⟨h1.1, h1.2, h2.1, h2.2.1, h2.2.2⟩

/-- Updating one path leaves reads of any other path unchanged. -/
theorem fsRead_fsWrite_ne (fs : List (String × String)) (p c tf : String)
    (h : p ≠ tf) : fsRead (fsWrite fs p c) tf = fsRead fs tf := by
  induction fs with
  | nil => simp [fsRead, fsWrite, h]
  | cons e es ih =>
    by_cases he : e.1 = p
    · simp [fsRead, fsWrite, he, h]
    · by_cases het : e.1 = tf <;> simp [fsRead, fsWrite, he, het, ih, Ne.symm h]

/-- Error log entries accumulated before or during the repair loop survive to
its result. -/
theorem repairLoop_errs_mono (g : String → Except PyExc String) (v : String → Bool)
    (failed : List String) :
    ∀ (fs : List (String × String)) (errs : List String) (tf : String),
      tf ∈ errs → tf ∈ (repairLoop g v failed fs errs).2 := by
  induction failed with
  | nil =>
    intro fs errs tf h
    simpa [repairLoop] using h
  | cons hd rest ih =>
    intro fs errs tf h
    cases hgen : g (buildRepairPrompt (fsRead fs hd)) with
    | error e =>
      simp only [repairLoop, hgen]
      exact ih fs (hd :: errs) tf (List.mem_cons_of_mem hd h)
    | ok raw =>
      cases hv : v (sanitize_generated_text (extract_code_from_markdown raw)) with
      | true =>
        simp only [repairLoop, hgen, hv]
        exact ih _ errs tf h
      | false =>
        simp only [repairLoop, hgen, hv]
        exact ih fs (hd :: errs) tf (List.mem_cons_of_mem hd h)

/-- Core induction for claim C5: if the repair attempt launched from content
`c0` never produces a validator-approved artifact, then the loop never writes
to `tf`, so `tf` still reads as `c0` afterwards and `tf` is error-logged. -/
theorem repairLoop_invalid_aux (g : String → Except PyExc String) (v : String → Bool)
    (tf c0 : String)
    (hnw : ∀ r, g (buildRepairPrompt c0) = Except.ok r →
      v (sanitize_generated_text (extract_code_from_markdown r)) = false) :
    ∀ (failed : List String) (fs : List (String × String)) (errs : List String),
      failed.Nodup → fsRead fs tf = c0 → (tf ∈ failed ∨ tf ∈ errs) →
      fsRead (repairLoop g v failed fs errs).1 tf = c0 ∧
      tf ∈ (repairLoop g v failed fs errs).2 := by
  intro failed
  induction failed with
  | nil =>
    intro fs errs hnd hread hmem
    rcases hmem with h | h
    · simp at h
    · exact ⟨by simpa [repairLoop] using hread, by simpa [repairLoop] using h⟩
  | cons hd rest ih =>
    intro fs errs hnd hread hmem
    have hndr : rest.Nodup := (List.nodup_cons.mp hnd).2
    by_cases heq : hd = tf
    · subst heq
      cases hgen : g (buildRepairPrompt (fsRead fs hd)) with
      | error e =>
        simp only [repairLoop, hgen]
        exact ih fs (hd :: errs) hndr hread (Or.inr (List.mem_cons_self hd errs))
      | ok raw =>
        have hg0 : g (buildRepairPrompt c0) = Except.ok raw := by
          rw [← hread]; exact hgen
        have hv := hnw raw hg0
        simp only [repairLoop, hgen, hv]
        exact ih fs (hd :: errs) hndr hread (Or.inr (List.mem_cons_self hd errs))
    · have hmem' : tf ∈ rest ∨ tf ∈ hd :: errs := by
        rcases hmem with h | h
        · rcases List.mem_cons.mp h with h | h
          · exact absurd h.symm heq
          · exact Or.inl h
        · exact Or.inr (List.mem_cons_of_mem hd h)
      cases hgen : g (buildRepairPrompt (fsRead fs hd)) with
      | error e =>
        simp only [repairLoop, hgen]
        exact ih fs (hd :: errs) hndr hread hmem'
      | ok raw =>
        cases hv : v (sanitize_generated_text (extract_code_from_markdown raw)) with
        | true =>
          simp only [repairLoop, hgen, hv]
          have hread' : fsRead (fsWrite fs hd
              (sanitize_generated_text (extract_code_from_markdown raw))) tf = c0 := by
            rw [fsRead_fsWrite_ne fs hd _ tf heq]; exact hread
          have hmem'' : tf ∈ rest ∨ tf ∈ errs := by
            rcases hmem with h | h
            · rcases List.mem_cons.mp h with h | h
              · exact absurd h.symm heq
              · exact Or.inl h
            · exact Or.inr h
          exact ih _ errs hndr hread' hmem''
        | false =>
          simp only [repairLoop, hgen, hv]
          exact ih fs (hd :: errs) hndr hread hmem'

/-- Claim C5.  In RepairStage, for every failed artifact whose approved repair
output, after extraction and sanitization, does not parse as syntactically
valid Python, the stage logs the artifact and skips it without writing: the
artifact's content after the stage is exactly what it was before (atomicity on
validation failure). -/
theorem repair_invalid_leaves_artifact_unchanged
    (generate : String → Except PyExc String) (isValid : String → Bool)
    (fs : List (String × String)) (failed : List String) (tf raw : String)
    (hnd : failed.Nodup) (hmem : tf ∈ failed)
    (hgen : generate (buildRepairPrompt (fsRead fs tf)) = Except.ok raw)
    (hval : isValid (sanitize_generated_text (extract_code_from_markdown raw)) = false) :
    fsRead (repairStage "yes" generate isValid fs failed).1 tf = fsRead fs tf ∧
    tf ∈ (repairStage "yes" generate isValid fs failed).2 := by
  have hgate : repairStage "yes" generate isValid fs failed =
      repairLoop generate isValid failed fs [] := rfl
  rw [hgate]
  have hnw : ∀ r, generate (buildRepairPrompt (fsRead fs tf)) = Except.ok r →
      isValid (sanitize_generated_text (extract_code_from_markdown r)) = false := by
    intro r hr
    rw [hgen] at hr
    cases hr
    exact hval
  exact repairLoop_invalid_aux generate isValid tf (fsRead fs tf) hnw failed fs []
    hnd rfl (Or.inl hmem)

/-- Witness for C5: an approved repair whose output the validator rejects
leaves the single failed artifact reading its old content and logs it. -/
theorem repair_invalid_leaves_artifact_unchanged_witness :
    fsRead (repairStage "yes" repairFixtureGenerate repairFixtureRejects
        [("tests/test_a.py", "old content")] ["tests/test_a.py"]).1 "tests/test_a.py" =
      fsRead [("tests/test_a.py", "old content")] "tests/test_a.py" ∧
    "tests/test_a.py" ∈ (repairStage "yes" repairFixtureGenerate repairFixtureRejects
        [("tests/test_a.py", "old content")] ["tests/test_a.py"]).2 := by
  have h := repair_invalid_leaves_artifact_unchanged repairFixtureGenerate
    repairFixtureRejects [("tests/test_a.py", "old content")] ["tests/test_a.py"]
    "tests/test_a.py" "```python\ndef broken(:\n```" (by simp) (by simp) rfl rfl
  exact ⟨h.1, h.2⟩

/-- Appending strings concatenates their character data. -/
theorem sdata_append (a b : String) : (a ++ b).data = a.data ++ b.data := rfl

/-- Round trip from characters to a string and back. -/
theorem asString_data (l : List Char) : l.asString.data = l := rfl

/-- Round trip from a string to characters and back. -/
theorem data_asString (s : String) : s.data.asString = s := rfl

/-- Unfolding equation of `hasOcc` on a cons cell. -/
theorem hasOcc_cons (pat : List Char) (c : Char) (cs : List Char) :
    hasOcc pat (c :: cs) = (pat.isPrefixOf (c :: cs) || hasOcc pat cs) := rfl

/-- A stripped line starting with the tagged opener also starts with the bare
fence. -/
theorem pyStartswith_fence_mono (s : String)
    (h : pyStartswith s "```python" = true) : pyStartswith s "```" = true := by
  unfold pyStartswith at h ⊢
  rw [List.isPrefixOf_iff_prefix] at h ⊢
  have h0 : "```".data <+: "```python".data := by
    rw [← List.isPrefixOf_iff_prefix]
    rfl
  exact h0.trans h

/-- Contrapositive form of `pyStartswith_fence_mono`. -/
theorem pyStartswith_fence_mono_neg (s : String)
    (h : pyStartswith s "```" = false) : pyStartswith s "```python" = false := by
  cases hp : pyStartswith s "```python" with
  | false => rfl
  | true =>
    have h2 := pyStartswith_fence_mono s hp
    rw [h2] at h
    cases h

/-- A newline-free character list splits into the single line it spells. -/
theorem splitAux_no_newline (l : List Char) :
    ∀ acc : List Char, '\n' ∉ l → (acc ≠ [] ∨ l ≠ []) →
      splitAux l acc = [(acc.reverse ++ l).asString] := by
  induction l with
  | nil =>
    intro acc hnl hne
    rcases hne with h | h
    · cases acc with
      | nil => exact absurd rfl h
      | cons a as => simp [splitAux]
    · exact absurd rfl h
  | cons c cs ih =>
    intro acc hnl hne
    have hc : ¬(c = '\n') := by
      intro hh
      subst hh
      exact hnl (List.mem_cons_self _ _)
    have hnl' : '\n' ∉ cs := fun hh => hnl (List.mem_cons_of_mem c hh)
    show splitAux (c :: cs) acc = _
    simp only [splitAux, if_neg hc]
    rw [ih (c :: acc) hnl' (Or.inl (by simp))]
    simp

/-- Splitting a text that opens with a newline-free segment followed by a
newline peels off that segment as one line. -/
theorem splitAux_append_newline (a : List Char) (ha : '\n' ∉ a) :
    ∀ (rest acc : List Char),
      splitAux (a ++ '\n' :: rest) acc =
        (acc.reverse ++ a).asString :: splitAux rest [] := by
  induction a with
  | nil =>
    intro rest acc
    simp [splitAux]
  | cons c cs ih =>
    intro rest acc
    have hc : ¬(c = '\n') := by
      intro hh
      subst hh
      exact ha (List.mem_cons_self _ _)
    have hcs : '\n' ∉ cs := fun hh => ha (List.mem_cons_of_mem c hh)
    show splitAux (c :: (cs ++ '\n' :: rest)) acc = _
    simp only [splitAux, if_neg hc]
    rw [ih hcs rest (c :: acc)]
    simp

/-- Splitting the LF-join of newline-free lines recovers the lines, provided
the final line is not empty. -/
theorem pySplitlines_pyJoin (ls : List String)
    (hnl : ∀ l ∈ ls, '\n' ∉ l.data)
    (hlast : ∀ t, ls.getLast? = some t → t ≠ "") :
    pySplitlines (pyJoin ls) = ls := by
  induction ls with
  | nil => rfl
  | cons l ls ih =>
    cases ls with
    | nil =>
      have hne : l ≠ "" := hlast l rfl
      have hd : l.data ≠ [] := fun hh => hne (String.ext hh)
      show splitAux (pyJoin [l]).data [] = [l]
      have hj : pyJoin [l] = l := rfl
      rw [hj, splitAux_no_newline l.data [] (hnl l (by simp)) (Or.inr hd)]
      simp [data_asString]
    | cons l2 ls2 =>
      have hj : pyJoin (l :: l2 :: ls2) = l ++ "\n" ++ pyJoin (l2 :: ls2) := rfl
      show splitAux (pyJoin (l :: l2 :: ls2)).data [] = _
      rw [hj]
      have hdata : (l ++ "\n" ++ pyJoin (l2 :: ls2)).data
          = l.data ++ '\n' :: (pyJoin (l2 :: ls2)).data := by
        rw [sdata_append, sdata_append]
        simp
      rw [hdata, splitAux_append_newline l.data (hnl l (by simp)) _ []]
      have ihx : splitAux (pyJoin (l2 :: ls2)).data [] = l2 :: ls2 := by
        apply ih
        · intro m hm
          exact hnl m (List.mem_cons_of_mem l hm)
        · intro t ht
          apply hlast t
          rw [List.getLast?_cons_cons]
          exact ht
      rw [ihx]
      simp [data_asString]

/-- Every line produced by `splitAux` is a contiguous segment of the text. -/
theorem mem_splitAux_seg (l : List Char) :
    ∀ (acc : List Char) (s : String), s ∈ splitAux l acc →
      s.data <:+: acc.reverse ++ l := by
  induction l with
  | nil =>
    intro acc s hs
    cases acc with
    | nil => simp [splitAux] at hs
    | cons a as =>
      simp [splitAux] at hs
      subst hs
      exact ⟨[], [], by simp [asString_data]⟩
  | cons c cs ih =>
    intro acc s hs
    by_cases hc : c = '\n'
    · subst hc
      simp only [splitAux, if_pos rfl] at hs
      rcases List.mem_cons.mp hs with h | h
      · subst h
        exact ⟨[], '\n' :: cs, by simp [asString_data]⟩
      · have h2 := ih [] s h
        simp only [List.reverse_nil, List.nil_append] at h2
        exact h2.trans ⟨acc.reverse ++ ['\n'], [], by simp⟩
    · simp only [splitAux, if_neg hc] at hs
      have h2 := ih (c :: acc) s hs
      rwa [List.reverse_cons, List.append_assoc, List.singleton_append] at h2

/-- Lines produced by `splitAux` from a clean accumulator never contain a
newline. -/
theorem mem_splitAux_no_newline (l : List Char) :
    ∀ (acc : List Char), '\n' ∉ acc → ∀ s : String, s ∈ splitAux l acc →
      '\n' ∉ s.data := by
  induction l with
  | nil =>
    intro acc hacc s hs
    cases acc with
    | nil => simp [splitAux] at hs
    | cons a as =>
      simp [splitAux] at hs
      subst hs
      simp only [asString_data]
      intro hmem
      apply hacc
      have hmem2 : '\n' ∈ (a :: as).reverse := by simpa using hmem
      exact List.mem_reverse.mp hmem2
  | cons c cs ih =>
    intro acc hacc s hs
    by_cases hc : c = '\n'
    · subst hc
      simp only [splitAux, if_pos rfl] at hs
      rcases List.mem_cons.mp hs with h | h
      · subst h
        simp only [asString_data]
        intro hmem
        exact hacc (List.mem_reverse.mp hmem)
      · exact ih [] (by simp) s h
    · simp only [splitAux, if_neg hc] at hs
      have hacc' : '\n' ∉ c :: acc := by
        intro hmem
        rcases List.mem_cons.mp hmem with h | h
        · exact hc h.symm
        · exact hacc h
      exact ih (c :: acc) hacc' s hs

/-- Every line of the LF-join of newline-free segments is one of the
segments. -/
theorem mem_splitlines_pyJoin (ms : List String) :
    (∀ m ∈ ms, '\n' ∉ m.data) →
      ∀ l ∈ pySplitlines (pyJoin ms), l ∈ ms := by
  induction ms with
  | nil =>
    intro _ l hl
    simp [pySplitlines, pyJoin, splitAux] at hl
  | cons m ms ih =>
    intro hms l hl
    cases ms with
    | nil =>
      by_cases hm : m.data = []
      · show l ∈ [m]
        have : pySplitlines (pyJoin [m]) = [] := by
          show splitAux (pyJoin [m]).data [] = []
          have hj : pyJoin [m] = m := rfl
          rw [hj, hm]
          rfl
        rw [this] at hl
        simp at hl
      · have : pySplitlines (pyJoin [m]) = [m] := by
          show splitAux (pyJoin [m]).data [] = [m]
          have hj : pyJoin [m] = m := rfl
          rw [hj, splitAux_no_newline m.data [] (hms m (by simp)) (Or.inr hm)]
          simp [data_asString]
        rw [this] at hl
        simpa using hl
    | cons m2 ms2 =>
      have hj : pyJoin (m :: m2 :: ms2) = m ++ "\n" ++ pyJoin (m2 :: ms2) := rfl
      have hdata : (m ++ "\n" ++ pyJoin (m2 :: ms2)).data
          = m.data ++ '\n' :: (pyJoin (m2 :: ms2)).data := by
        rw [sdata_append, sdata_append]
        simp
      have hsplit : pySplitlines (pyJoin (m :: m2 :: ms2))
          = m :: pySplitlines (pyJoin (m2 :: ms2)) := by
        show splitAux (pyJoin (m :: m2 :: ms2)).data []
            = m :: splitAux (pyJoin (m2 :: ms2)).data []
        rw [hj, hdata, splitAux_append_newline m.data (hms m (by simp)) _ []]
        simp [data_asString]
      rw [hsplit] at hl
      rcases List.mem_cons.mp hl with h | h
      · subst h
        exact List.mem_cons_self _ _
      · have ihx := ih (fun x hx => hms x (List.mem_cons_of_mem m hx)) l h
        exact List.mem_cons_of_mem m ihx

/-- Occurrence test characterized as the infix relation. -/
theorem hasOcc_iff_seg (pat l : List Char) : hasOcc pat l = true ↔ pat <:+: l := by
  induction l with
  | nil =>
    show pat.isPrefixOf [] = true ↔ _
    simp [List.isPrefixOf_iff_prefix]
  | cons c cs ih =>
    rw [hasOcc_cons]
    simp [List.isPrefixOf_iff_prefix, ih, List.infix_cons_iff]

/-- Occurrence-freedom transfers to contiguous fragments. -/
theorem hasOcc_false_mono (pat l m : List Char) (hinf : m <:+: l)
    (h : hasOcc pat l = false) : hasOcc pat m = false := by
  cases hm : hasOcc pat m with
  | false => rfl
  | true =>
    have h1 := (hasOcc_iff_seg pat m).mp hm
    have h2 := (hasOcc_iff_seg pat l).mpr (h1.trans hinf)
    rw [h2] at h
    cases h

/-- An occurrence of a pattern yields an occurrence of any prefix of that
pattern. -/
theorem hasOcc_pattern_mono (p q l : List Char) (hpq : p <+: q)
    (h : hasOcc q l = true) : hasOcc p l = true :=
  (hasOcc_iff_seg p l).mpr (hpq.isInfix.trans ((hasOcc_iff_seg q l).mp h))

/-- Stripping keeps a contiguous fragment of the original characters. -/
theorem stripChars_seg (l : List Char) : stripChars l <:+: l := by
  have h1 : l.dropWhile pyWS <:+ l := List.dropWhile_suffix pyWS
  have h2 : (l.dropWhile pyWS).reverse.dropWhile pyWS <:+ (l.dropWhile pyWS).reverse :=
    List.dropWhile_suffix pyWS
  have h3 : ((l.dropWhile pyWS).reverse.dropWhile pyWS).reverse <+: l.dropWhile pyWS := by
    have h4 := List.reverse_prefix.mpr h2
    rwa [List.reverse_reverse] at h4
  exact (List.IsPrefix.isInfix h3).trans h1.isInfix

/-- Characters surviving `dropWhile` at the front fail the predicate. -/
theorem dropWhile_head_not_ws (p : Char → Bool) (l : List Char) :
    ∀ c, (l.dropWhile p).head? = some c → p c = false := by
  induction l with
  | nil =>
    intro c hc
    simp [List.dropWhile] at hc
  | cons x xs ih =>
    intro c hc
    rw [List.dropWhile_cons] at hc
    cases hx : p x with
    | true =>
      rw [hx] at hc
      simp at hc
      exact ih c hc
    | false =>
      rw [hx] at hc
      simp at hc
      rw [← hc]
      exact hx

/-- A list whose head fails the predicate is untouched by `dropWhile`. -/
theorem dropWhile_eq_self_of_head (p : Char → Bool) (l : List Char)
    (h : ∀ c, l.head? = some c → p c = false) : l.dropWhile p = l := by
  cases l with
  | nil => rfl
  | cons x xs =>
    rw [List.dropWhile_cons]
    simp [h x rfl]

/-- Stripping is idempotent. -/
theorem stripChars_idem (l : List Char) : stripChars (stripChars l) = stripChars l := by
  have hd : ∀ c, (l.dropWhile pyWS).head? = some c → pyWS c = false :=
    dropWhile_head_not_ws pyWS l
  have hr : ∀ c, ((l.dropWhile pyWS).reverse.dropWhile pyWS).head? = some c →
      pyWS c = false :=
    dropWhile_head_not_ws pyWS (l.dropWhile pyWS).reverse
  have hm : ∀ c, (((l.dropWhile pyWS).reverse.dropWhile pyWS).reverse).head? = some c →
      pyWS c = false := by
    intro c hc
    have hpre : ((l.dropWhile pyWS).reverse.dropWhile pyWS).reverse <+: l.dropWhile pyWS := by
      have h2 : (l.dropWhile pyWS).reverse.dropWhile pyWS <:+ (l.dropWhile pyWS).reverse :=
        List.dropWhile_suffix pyWS
      have h4 := List.reverse_prefix.mpr h2
      rwa [List.reverse_reverse] at h4
    obtain ⟨t, ht⟩ := hpre
    apply hd c
    rw [← ht]
    cases hx : ((l.dropWhile pyWS).reverse.dropWhile pyWS).reverse with
    | nil =>
      rw [hx] at hc
      simp at hc
    | cons y ys =>
      rw [hx] at hc
      simp at hc
      simp [hc]
  show stripChars (((l.dropWhile pyWS).reverse.dropWhile pyWS).reverse) = _
  unfold stripChars
  rw [dropWhile_eq_self_of_head pyWS _ hm, List.reverse_reverse,
    dropWhile_eq_self_of_head pyWS _ hr]

/-- Every line collected by the fence loop comes from the input and never
starts (after stripping) with a fence marker. -/
theorem extractLines_mem (ls : List String) :
    ∀ (b : Bool) (l : String), l ∈ extractLines ls b →
      l ∈ ls ∧ pyStartswith (pyStrip l) "```" = false := by
  induction ls with
  | nil =>
    intro b l h
    simp [extractLines] at h
  | cons x xs ih =>
    intro b l h
    cases h1 : pyStartswith (pyStrip x) "```python" with
    | true =>
      simp only [extractLines, h1] at h
      simp at h
      obtain ⟨hm, hf⟩ := ih true l h
      exact ⟨List.mem_cons_of_mem x hm, hf⟩
    | false =>
      cases b with
      | false =>
        simp only [extractLines, h1] at h
        simp at h
        obtain ⟨hm, hf⟩ := ih false l h
        exact ⟨List.mem_cons_of_mem x hm, hf⟩
      | true =>
        cases h2 : pyStartswith (pyStrip x) "```" with
        | true =>
          simp only [extractLines, h1, h2] at h
          simp at h
          obtain ⟨hm, hf⟩ := ih false l h
          exact ⟨List.mem_cons_of_mem x hm, hf⟩
        | false =>
          simp only [extractLines, h1, h2] at h
          simp at h
          rcases h with h | h
          · subst h
            exact ⟨List.mem_cons_self _ _, h2⟩
          · obtain ⟨hm, hf⟩ := ih true l h
            exact ⟨List.mem_cons_of_mem x hm, hf⟩

/-- With the flag down, fence-free input collects nothing. -/
theorem extractLines_no_fence (ls : List String)
    (h : ∀ l ∈ ls, pyStartswith (pyStrip l) "```" = false) :
    extractLines ls false = [] := by
  induction ls with
  | nil => rfl
  | cons x xs ih =>
    have hx := h x (List.mem_cons_self x xs)
    have hx9 := pyStartswith_fence_mono_neg (pyStrip x) hx
    simp only [extractLines, hx9, hx]
    simp only [Bool.false_eq_true, if_false, and_self, ite_self]
    exact ih (fun l hl => h l (List.mem_cons_of_mem x hl))

/-- With the flag up, fence-free lines are collected verbatim until the bare
closing fence, which is dropped. -/
theorem extractLines_inside (ls : List String)
    (h : ∀ l ∈ ls, pyStartswith (pyStrip l) "```" = false) :
    extractLines (ls ++ ["```"]) true = ls := by
  induction ls with
  | nil =>
    have h1 : pyStartswith (pyStrip "```") "```python" = false := by decide
    have h2 : pyStartswith (pyStrip "```") "```" = true := by decide
    show extractLines ["```"] true = []
    simp [extractLines, h1, h2]
  | cons x xs ih =>
    have hx := h x (List.mem_cons_self x xs)
    have hx9 := pyStartswith_fence_mono_neg (pyStrip x) hx
    show extractLines (x :: (xs ++ ["```"])) true = x :: xs
    simp [extractLines, hx9, hx]
    exact ih (fun l hl => h l (List.mem_cons_of_mem x hl))

/-- Claim C2 counterexample.  A bare fence opener does not set the
inside-code-fence flag: the source only opens on lines starting with the
`python`-tagged opener, so the text whose bare-fenced block encloses the line
`L1` extracts to the empty string rather than to `L1`. -/
theorem bare_fence_opener_counterexample :
    extract_code_from_markdown "```\nL1\n```" = "" ∧
    extract_code_from_markdown "```\nL1\n```" ≠ "L1" := by
  constructor
  · rfl
  · decide

/-- Claim C2 (amended).  The fenced-block extractor sets its inside-code-fence
flag only on lines that after stripping start with the `python`-tagged opener
(a bare opener does not set it), clears it on a fence-prefixed line while the
flag is set, and, for a text consisting of a tagged opener, the lines
`L1..Ln` (newline-free, none fence-prefixed) and a bare closing fence, returns
exactly `L1..Ln` joined by newline, verbatim, in original order, including
interior blank lines, with the fence lines excluded. -/
theorem fenced_extraction_python_opener :
    (∀ (line : String) (rest : List String) (b : Bool),
      pyStartswith (pyStrip line) "```python" = true →
      extractLines (line :: rest) b = extractLines rest true) ∧
    (∀ (line : String) (rest : List String),
      pyStartswith (pyStrip line) "```python" = false →
      pyStartswith (pyStrip line) "```" = true →
      extractLines (line :: rest) true = extractLines rest false) ∧
    (∀ ls : List String, (∀ l ∈ ls, '\n' ∉ l.data) →
      (∀ l ∈ ls, pyStartswith (pyStrip l) "```" = false) →
      extract_code_from_markdown (pyJoin ("```python" :: (ls ++ ["```"]))) = pyJoin ls) := by
  refine ⟨?_, ?_, ?_⟩
  · intro line rest b h
    simp [extractLines, h]
  · intro line rest h1 h2
    simp [extractLines, h1, h2]
  · intro ls hnl hnf
    have hsplit : pySplitlines (pyJoin ("```python" :: (ls ++ ["```"])))
        = "```python" :: (ls ++ ["```"]) := by
      apply pySplitlines_pyJoin
      · intro l hl
        rcases List.mem_cons.mp hl with h | h
        · subst h
          decide
        · rcases List.mem_append.mp h with h | h
          · exact hnl l h
          · simp at h
            subst h
            decide
      · intro t ht
        have hconc : ("```python" :: (ls ++ ["```"])).getLast? = some "```" := by
          rw [show "```python" :: (ls ++ ["```"]) = ("```python" :: ls) ++ ["```"] from rfl]
          exact List.getLast?_concat _
        rw [hconc] at ht
        cases ht
        decide
    unfold extract_code_from_markdown
    rw [hsplit]
    have hfirst : pyStartswith (pyStrip "```python") "```python" = true := by decide
    have hstep : extractLines ("```python" :: (ls ++ ["```"])) false
        = extractLines (ls ++ ["```"]) true := by
      simp [extractLines, hfirst]
    rw [hstep, extractLines_inside ls hnf]

/-- Witness for C2 (amended): a tagged opener with three enclosed lines, one of
them blank, round-trips; a tagged opener line sets the flag. -/
theorem fenced_extraction_python_opener_witness :
    extract_code_from_markdown (pyJoin ["```python", "x = 1", "", "print(2)", "```"]) =
      pyJoin ["x = 1", "", "print(2)"] ∧
    extractLines ["```python", "abc"] false = extractLines ["abc"] true := by
  constructor
  · exact fenced_extraction_python_opener.2.2 ["x = 1", "", "print(2)"]
      (by decide) (by decide)
  · exact fenced_extraction_python_opener.1 "```python" ["abc"] false (by decide)

/-- Claim C8.  For every input text containing no fence marker (no occurrence
of the three-backtick sequence), `extract_code_from_markdown` returns the
empty text, not the original input. -/
theorem extract_no_fence_empty (text : String)
    (h : hasOcc "```".data text.data = false) :
    extract_code_from_markdown text = "" := by
  have hlines : ∀ l ∈ pySplitlines text, pyStartswith (pyStrip l) "```" = false := by
    intro l hl
    cases hb : pyStartswith (pyStrip l) "```" with
    | false => rfl
    | true =>
      exfalso
      have h1 : "```".data <+: (pyStrip l).data := List.isPrefixOf_iff_prefix.mp hb
      have h2 : (pyStrip l).data <:+: l.data := by
        rw [show (pyStrip l).data = stripChars l.data from rfl]
        exact stripChars_seg l.data
      have h3 : l.data <:+: text.data := by
        have h4 := mem_splitAux_seg text.data [] l hl
        simpa using h4
      have h5 : "```".data <:+: text.data := (h1.isInfix.trans h2).trans h3
      have h6 := (hasOcc_iff_seg "```".data text.data).mpr h5
      rw [h6] at h
      cases h
  unfold extract_code_from_markdown
  rw [extractLines_no_fence _ hlines]
  rfl

/-- Witness for C8: applying the extractor to already-clean code with no fence
markers yields the empty text. -/
theorem extract_no_fence_empty_witness :
    hasOcc "```".data "def f(x):\n    return x + 1".data = false ∧
    extract_code_from_markdown "def f(x):\n    return x + 1" = "" :=
  ⟨by decide, extract_no_fence_empty "def f(x):\n    return x + 1" (by decide)⟩

/-- Claim C9.  For every input text, no line of the extractor's output starts
(after stripping) with a fence marker: fence delimiter lines are never included
in the extracted content, however many blocks are opened, closed, or left
unterminated. -/
theorem extract_output_lines_never_fences (text : String) :
    ∀ l ∈ pySplitlines (extract_code_from_markdown text),
      pyStartswith (pyStrip l) "```" = false := by
  intro l hl
  have hnl : ∀ m ∈ extractLines (pySplitlines text) false, '\n' ∉ m.data := by
    intro m hm
    have hmem := (extractLines_mem (pySplitlines text) false m hm).1
    exact mem_splitAux_no_newline text.data [] (by simp) m hmem
  have hl2 : l ∈ extractLines (pySplitlines text) false :=
    mem_splitlines_pyJoin (extractLines (pySplitlines text) false) hnl l hl
  exact (extractLines_mem (pySplitlines text) false l hl2).2

/-- Witness for C9: the output line of a well-formed block is fence-free. -/
theorem extract_output_lines_never_fences_witness :
    pyStartswith (pyStrip "abc") "```" = false :=
  extract_output_lines_never_fences "```python\nabc\n```" "abc" (by decide)

/-- The fence string is three backticks. -/
theorem fence3_eq : "```".data = [btChar, btChar, btChar] := by decide

/-- Head mismatch refutes the prefix test. -/
theorem isPrefixOf_cons_ne (a x : Char) (as t : List Char) (h : a ≠ x) :
    (a :: as).isPrefixOf (x :: t) = false := by
  have he : (a :: as).isPrefixOf (x :: t) = (a == x && as.isPrefixOf t) := rfl
  rw [he]
  simp [h]

/-- A positive skip counter just drops that many characters. -/
theorem removeOccAux_skip (pat : List Char) :
    ∀ (l : List Char) (k : Nat), removeOccAux pat k l = removeOccAux pat 0 (l.drop k) := by
  intro l
  induction l with
  | nil =>
    intro k
    cases k <;> rfl
  | cons c cs ih =>
    intro k
    cases k with
    | zero => rfl
    | succ k =>
      show removeOccAux pat k cs = removeOccAux pat 0 ((c :: cs).drop (k + 1))
      rw [List.drop_succ_cons]
      exact ih k

/-- Rolled unfolding of occurrence removal: consume a matching occurrence
whole, otherwise emit the head. -/
theorem removeOcc_cons (pat : List Char) (c : Char) (cs : List Char) :
    removeOcc pat (c :: cs) =
      if pat.isPrefixOf (c :: cs) then removeOcc pat (cs.drop (pat.length - 1))
      else c :: removeOcc pat cs := by
  have he : removeOcc pat (c :: cs)
      = if pat.isPrefixOf (c :: cs) then removeOccAux pat (pat.length - 1) cs
        else c :: removeOcc pat cs := rfl
  rw [he, removeOccAux_skip pat cs (pat.length - 1)]
  rfl

/-- A head other than a backtick passes through fence removal. -/
theorem removeOcc_fence_cons_ne (x : Char) (t : List Char) (hx : x ≠ btChar) :
    removeOcc "```".data (x :: t) = x :: removeOcc "```".data t := by
  rw [removeOcc_cons]
  have hp : "```".data.isPrefixOf (x :: t) = false := by
    rw [fence3_eq]
    exact isPrefixOf_cons_ne btChar x _ t (Ne.symm hx)
  simp [hp]

/-- Removal is the identity on occurrence-free text. -/
theorem removeOcc_of_no_occ (pat l : List Char) (h : hasOcc pat l = false) :
    removeOcc pat l = l := by
  induction l with
  | nil => rfl
  | cons c cs ih =>
    rw [hasOcc_cons] at h
    simp only [Bool.or_eq_false_iff] at h
    obtain ⟨h1, h2⟩ := h
    rw [removeOcc_cons]
    simp [h1]
    exact ih h2

/-- Fence removal never leaves two leading backticks when the input did not
start with two backticks. -/
theorem no_double_fence_after_remove (cs : List Char)
    (h : [btChar, btChar].isPrefixOf cs = false) :
    [btChar, btChar].isPrefixOf (removeOcc "```".data cs) = false := by
  cases cs with
  | nil => rfl
  | cons x cs2 =>
    by_cases hx : x = btChar
    · subst hx
      cases cs2 with
      | nil => decide
      | cons y cs3 =>
        by_cases hy : y = btChar
        · subst hy
          exfalso
          have hcontra : [btChar, btChar].isPrefixOf (btChar :: btChar :: cs3) = true := by
            have he : [btChar, btChar].isPrefixOf (btChar :: btChar :: cs3)
                = (btChar == btChar && [btChar].isPrefixOf (btChar :: cs3)) := rfl
            have he2 : ([btChar] : List Char).isPrefixOf (btChar :: cs3)
                = (btChar == btChar && ([] : List Char).isPrefixOf cs3) := rfl
            rw [he, he2]
            simp [List.isPrefixOf]
          rw [hcontra] at h
          cases h
        · have hpf : "```".data.isPrefixOf (btChar :: y :: cs3) = false := by
            rw [fence3_eq]
            have he : ([btChar, btChar, btChar] : List Char).isPrefixOf (btChar :: y :: cs3)
                = (btChar == btChar && [btChar, btChar].isPrefixOf (y :: cs3)) := rfl
            rw [he, isPrefixOf_cons_ne btChar y [btChar] cs3 (Ne.symm hy)]
            simp
          rw [removeOcc_cons, if_neg (by simp [hpf])]
          rw [removeOcc_fence_cons_ne y cs3 hy]
          have he : [btChar, btChar].isPrefixOf (btChar :: y :: removeOcc "```".data cs3)
              = (btChar == btChar && [btChar].isPrefixOf (y :: removeOcc "```".data cs3)) := rfl
          rw [he, isPrefixOf_cons_ne btChar y [] _ (Ne.symm hy)]
          simp
    · rw [removeOcc_fence_cons_ne x cs2 hx]
      exact isPrefixOf_cons_ne btChar x [btChar] _ (Ne.symm hx)

/-- Core induction: after removing every fence occurrence, no fence occurrence
remains anywhere in the text. -/
theorem removeOcc_fence_no_occ_aux :
    ∀ (n : Nat) (l : List Char), l.length ≤ n →
      hasOcc "```".data (removeOcc "```".data l) = false := by
  intro n
  induction n with
  | zero =>
    intro l hl
    have h0 : l = [] := List.length_eq_zero.mp (Nat.le_zero.mp hl)
    subst h0
    decide
  | succ n ih =>
    intro l hl
    cases l with
    | nil => decide
    | cons c cs =>
      have hlen : cs.length ≤ n := by
        simp at hl
        omega
      cases hp : "```".data.isPrefixOf (c :: cs) with
      | true =>
        rw [removeOcc_cons, if_pos (by simp [hp])]
        apply ih
        simp [List.length_drop]
        omega
      | false =>
        rw [removeOcc_cons, if_neg (by simp [hp])]
        have hcs := ih cs hlen
        rw [hasOcc_cons, hcs, Bool.or_false]
        by_cases hc : c = btChar
        · subst hc
          have hbb : [btChar, btChar].isPrefixOf cs = false := by
            cases hbb : [btChar, btChar].isPrefixOf cs with
            | false => rfl
            | true =>
              exfalso
              have hfull : "```".data.isPrefixOf (btChar :: cs) = true := by
                rw [fence3_eq]
                have he : ([btChar, btChar, btChar] : List Char).isPrefixOf (btChar :: cs)
                    = (btChar == btChar && [btChar, btChar].isPrefixOf cs) := rfl
                rw [he, hbb]
                simp
              rw [hfull] at hp
              cases hp
          have hS := no_double_fence_after_remove cs hbb
          nth_rewrite 1 [fence3_eq]
          have he : ([btChar, btChar, btChar] : List Char).isPrefixOf
              (btChar :: removeOcc "```".data cs)
              = (btChar == btChar && [btChar, btChar].isPrefixOf (removeOcc "```".data cs)) := rfl
          rw [he, hS]
          simp
        · nth_rewrite 1 [fence3_eq]
          exact isPrefixOf_cons_ne btChar c _ _ (Ne.symm hc)

/-- Fence removal leaves no fence occurrence. -/
theorem hasOcc_removeOcc_fence (l : List Char) :
    hasOcc "```".data (removeOcc "```".data l) = false :=
  removeOcc_fence_no_occ_aux l.length l (le_refl _)

/-- Claim C10.  `sanitize_generated_text` is idempotent: the first pass removes
every tagged and bare fence occurrence and strips surrounding whitespace, after
which a second pass finds no fence marker to remove and nothing to strip, so it
is the identity on the first pass's output. -/
theorem sanitize_generated_text_idem (t : String) :
    sanitize_generated_text (sanitize_generated_text t) = sanitize_generated_text t := by
  have hs : sanitize_generated_text t
      = (stripChars (removeOcc "```".data (removeOcc "```python".data t.data))).asString := rfl
  have h2 : hasOcc "```".data
      (removeOcc "```".data (removeOcc "```python".data t.data)) = false :=
    hasOcc_removeOcc_fence (removeOcc "```python".data t.data)
  have h3 : hasOcc "```".data
      (stripChars (removeOcc "```".data (removeOcc "```python".data t.data))) = false :=
    hasOcc_false_mono _ _ _ (stripChars_seg _) h2
  have h9 : hasOcc "```python".data
      (stripChars (removeOcc "```".data (removeOcc "```python".data t.data))) = false := by
    cases h : hasOcc "```python".data
        (stripChars (removeOcc "```".data (removeOcc "```python".data t.data))) with
    | false => rfl
    | true =>
      exfalso
      have hpre : "```".data <+: "```python".data := by
        rw [← List.isPrefixOf_iff_prefix]
        rfl
      have h4 := hasOcc_pattern_mono "```".data "```python".data _ hpre h
      rw [h4] at h3
      cases h3
  have hstep : sanitize_generated_text (sanitize_generated_text t)
      = (stripChars (removeOcc "```".data (removeOcc "```python".data
          (stripChars (removeOcc "```".data (removeOcc "```python".data t.data)))))).asString := by
    rw [hs]
    rfl
  rw [hstep, removeOcc_of_no_occ _ _ h9, removeOcc_of_no_occ _ _ h3, stripChars_idem, hs]
